/-
Verification of the Northern Ireland disease-prevalence pipeline.

Shallow embedding of the two scripts of the repository:
  * the offline R pre-computation script (header collapsing,
    register aggregation, geocode join, dataset emission), and
  * the D3 dashboard script (feature derivation, stable table sort,
    pagination state machine).

Modelling conventions:
  * strings manipulated character-wise (str_trim, regex suffix
    stripping, the Unnamed placeholder test) are lists of characters;
  * numeric cells are Option Rat: none is NA / null, some q is a
    numeric value; R double arithmetic is modelled exactly over Rat,
    and round(x, 10) is modelled as rounding to the nearest multiple
    of 10 ^ (-10);
  * as.integer is truncation toward zero;
  * R named lists keyed by practice id are association lists with
    replace-or-append assignment, matching the update order of the
    script's loops.
-/
import Mathlib

namespace NIPrevalence

/-! Character-level utilities used by collapse_headers and
clean_register_name in the R script. -/

def isWS (c : Char) : Bool := c = ' ' || c = '\t' || c = '\n' || c = '\r'

/-- Model of str_trim: remove leading and trailing whitespace. -/
def trimChars (s : List Char) : List Char :=
  ((s.dropWhile isWS).reverse.dropWhile isWS).reverse

def unnamedTok : List Char := ['U', 'n', 'n', 'a', 'm', 'e', 'd']

/-- Model of the regex test str_detect(x, regex anchored at start, word Unnamed). -/
def startsUnnamed (s : List Char) : Bool := s.take 7 == unnamedTok

/-- Per-cell treatment inside collapse_headers: an NA cell or a cell
starting with the Unnamed placeholder becomes the empty string;
otherwise the cell is trimmed. -/
def blankCell : Option (List Char) → List Char
  | none => []
  | some s => if startsUnnamed s then [] else trimChars s

/-- The if-chain of collapse_headers combining the two processed
header cells of one column into a canonical key. -/
def combineKey (a b : List Char) : List Char :=
  if a ≠ [] ∧ b ≠ [] then a ++ '|' :: b
  else if a ≠ [] then a
  else if b ≠ [] then b
  else []

/-- collapse_headers: one canonical key per physical column, from the
two header rows. -/
def collapse_headers (hdr : List (Option (List Char) × Option (List Char))) :
    List (List Char) :=
  hdr.map (fun p => combineKey (blankCell p.1) (blankCell p.2))

/-- Column de-duplication: the R script keeps the columns whose name
is not duplicated, i.e. for each name the first physical column.
The result pairs each kept column with its physical position. -/
def dedupColsAux (seen : List (List Char)) (i : Nat) :
    List (List Char) → List (Nat × List Char)
  | [] => []
  | k :: ks =>
    if k ∈ seen then dedupColsAux seen (i + 1) ks
    else (i, k) :: dedupColsAux (k :: seen) (i + 1) ks

/-- Normalized header: collapse the two header rows, then keep only
the first physical column for each canonical key. -/
def normalizeHeader (hdr : List (Option (List Char) × Option (List Char))) :
    List (Nat × List Char) :=
  dedupColsAux [] 0 (collapse_headers hdr)

/-- First regex replacement of clean_register_name: remove a trailing
dot followed by one or more digits. -/
def stripRepSuffix (s : List Char) : List Char :=
  if s.reverse.takeWhile Char.isDigit = [] then s
  else
    match s.reverse.dropWhile Char.isDigit with
    | '.' :: rest => rest.reverse
    | _ => s

/-- Second regex replacement of clean_register_name: remove a trailing
space, one or more digits, and a plus sign. -/
def stripAgeSuffix (s : List Char) : List Char :=
  match s.reverse with
  | '+' :: r =>
    if r.takeWhile Char.isDigit = [] then s
    else
      match r.dropWhile Char.isDigit with
      | ' ' :: rest => rest.reverse
      | _ => s
  | _ => s

/-- clean_register_name from the R script: strip the numeric
repetition suffix, then the age-band suffix, then trim. -/
def clean_register_name (s : List Char) : List Char :=
  trimChars (stripAgeSuffix (stripRepSuffix s))

/-! Register Aggregator: the per-condition loop body of the R script.
A normalized row of the prevalence table carries its practice id and
its numeric cells keyed by canonical column name (none is NA). The
column lists ptCols, prCols, ssCols are the patient-count, full-list
prevalence and subset prevalence columns mapped to one base condition
by patient_map, prev_map and subset_map. -/

structure PrevRow where
  pid : String
  cells : List (String × Option ℚ)
  deriving DecidableEq

/-- Cell access row[col]: the value of a named cell, NA when the cell
is NA or the column is not present in the row. -/
def getCell (r : PrevRow) (c : String) : Option ℚ :=
  (r.cells.lookup c).join

/-- Model of sum(xs, na.rm = TRUE): NA values contribute zero. -/
def sumNA (vs : List (Option ℚ)) : ℚ :=
  (vs.map (fun v => v.getD 0)).sum

/-- Model of averaging the non-NA values: NA when every value is NA. -/
def meanNA (vs : List (Option ℚ)) : Option ℚ :=
  let xs := vs.filterMap id
  if xs = [] then none else some (xs.sum / (xs.length : ℚ))

/-- Model of round(q, 10): round to the nearest multiple of
10 ^ (-10). R rounds half to even; the tie-breaking rule is
irrelevant to every theorem below, so the Mathlib round is used. -/
def round10 (q : ℚ) : ℚ :=
  ((round (q * 10 ^ 10) : ℤ) : ℚ) / 10 ^ 10

/-- Model of as.integer: truncation toward zero. -/
def truncQ (q : ℚ) : ℤ :=
  if 0 ≤ q then ⌊q⌋ else ⌈q⌉

/-- One per-practice-per-condition entry of condition_data. -/
structure CondMetric where
  patients : ℤ
  prevalence_per_1000 : Option ℚ
  prevalence_over50_per_1000 : Option ℚ
  deriving DecidableEq

/-- One per-condition entry of condition_totals. -/
structure CondTotals where
  total_patients : ℤ
  prevalence_per_1000 : Option ℚ
  prevalence_over50_per_1000 : Option ℚ
  deriving DecidableEq

/-- Named-list assignment by key: replace the existing entry in
place, or append a new one. -/
def upsert {β : Type} (k : String) (v : β) :
    List (String × β) → List (String × β)
  | [] => [(k, v)]
  | (k₂, v₂) :: rest =>
    if k₂ = k then (k, v) :: rest else (k₂, v₂) :: upsert k v rest

/-- Patient count of one row for one condition: the NA-dropping sum
of the mapped patient-count cells. -/
def rowPatients (ptCols : List String) (r : PrevRow) : ℚ :=
  sumNA (ptCols.map (getCell r))

/-- The per-practice record the loop stores for one row: truncated
patient sum, and the rounded means of the non-NA prevalence values
(NA when every input is NA). -/
def rowMetric (ptCols prCols ssCols : List String) (r : PrevRow) : CondMetric :=
  { patients := truncQ (rowPatients ptCols r)
    prevalence_per_1000 := (meanNA (prCols.map (getCell r))).map round10
    prevalence_over50_per_1000 := (meanNA (ssCols.map (getCell r))).map round10 }

/-- The row loop of the R script for one base condition: accumulate
the raw national patient total and the per-practice list; a row whose
patient sum is zero is skipped (the sum is never NA because the NA
values were removed from it). -/
def condFoldAux (ptCols prCols ssCols : List String) :
    List PrevRow → ℚ × List (String × CondMetric) → ℚ × List (String × CondMetric)
  | [], acc => acc
  | r :: rs, acc =>
    condFoldAux ptCols prCols ssCols rs
      (if rowPatients ptCols r = 0 then acc
       else (acc.1 + rowPatients ptCols r,
             upsert r.pid (rowMetric ptCols prCols ssCols r) acc.2))

def condFold (ptCols prCols ssCols : List String) (rows : List PrevRow) :
    ℚ × List (String × CondMetric) :=
  condFoldAux ptCols prCols ssCols rows (0, [])

def listSizeCol : String := "Practice List Size"

def subsetPopCol : String := "Target population size|50+"

/-- Model of population_total: NA-dropping sum of the practice
list-size column over the whole kept row set. -/
def populationTotal (rows : List PrevRow) : ℚ :=
  sumNA (rows.map (fun r => getCell r listSizeCol))

/-- NA-dropping sum of the subset target-population column over the
whole kept row set. -/
def subsetPopulationTotal (rows : List PrevRow) : ℚ :=
  sumNA (rows.map (fun r => getCell r subsetPopCol))

/-- Model of population_50_total: the subset denominator when the
subset column exists among the normalized column names, NA otherwise. -/
def population50Total (colNames : List String) (rows : List PrevRow) : Option ℚ :=
  if subsetPopCol ∈ colNames then some (subsetPopulationTotal rows) else none

/-- The emitted per-condition pair: condition_data entry and
condition_totals entry. -/
structure CondResult where
  data : List (String × CondMetric)
  totals : CondTotals
  deriving DecidableEq

/-- One iteration of the base-condition loop of the R script:
per-practice metrics, then the national totals, with each rate NA
unless its denominator is a known positive number, and each stored
rate rounded to 10 decimal digits. -/
def computeCondition (ptCols prCols ssCols colNames : List String)
    (rows : List PrevRow) : CondResult :=
  let f := condFold ptCols prCols ssCols rows
  let popT := populationTotal rows
  let pop50 := population50Total colNames rows
  let prevAll : Option ℚ := if 0 < popT then some (f.1 / popT * 1000) else none
  let prev50All : Option ℚ :=
    match pop50 with
    | none => none
    | some p => if 0 < p then some (f.1 / p * 1000) else none
  { data := f.2
    totals :=
      { total_patients := truncQ f.1
        prevalence_per_1000 := prevAll.map round10
        prevalence_over50_per_1000 := prev50All.map round10 } }

/-! Geocoder Join and practice directory (Table 4 and the BT
postcode table). -/

structure DetailRow where
  pid : String
  name : String
  postcode : String
  deriving DecidableEq

structure PostcodeRow where
  postcode : String
  lat : Option ℚ
  lon : Option ℚ
  deriving DecidableEq

def trimStr (s : String) : String :=
  (trimChars s.data).asString

/-- Model of distinct(Postcode, .keep_all = TRUE): keep the first row
for each postcode. -/
def distinctPC (seen : List String) : List PostcodeRow → List PostcodeRow
  | [] => []
  | r :: rs =>
    if r.postcode ∈ seen then distinctPC seen rs
    else r :: distinctPC (r.postcode :: seen) rs

/-- The postcode lookup table after trimming, dropping rows with a
missing coordinate, and de-duplicating by postcode. -/
def cleanPostcodes (pcs : List PostcodeRow) : List PostcodeRow :=
  distinctPC []
    ((pcs.map (fun r => { r with postcode := trimStr r.postcode })).filter
      (fun r => r.lat.isSome && r.lon.isSome))

def lookupPC (tbl : List PostcodeRow) (pc : String) : Option PostcodeRow :=
  tbl.find? (fun r => r.postcode == pc)

/-- One entry of practice_info. -/
structure PracticeInfo where
  name : String
  latitude : Option ℚ
  longitude : Option ℚ
  deriving DecidableEq

/-- The joined record for one practice-details row: its name, and the
coordinates of the first matching postcode row, NA when unmatched. -/
def geocodeInfo (tbl : List PostcodeRow) (d : DetailRow) : PracticeInfo :=
  { name := d.name
    latitude := (lookupPC tbl (trimStr d.postcode)).bind (fun r => r.lat)
    longitude := (lookupPC tbl (trimStr d.postcode)).bind (fun r => r.lon) }

/-- practice_info: left join of the practice-details rows with the
cleaned postcode table, keyed by practice id; an unmatched postcode
leaves both coordinates NA. -/
def practiceInfoFrom (details : List DetailRow) (pcs : List PostcodeRow) :
    List (String × PracticeInfo) :=
  details.foldl
    (fun acc d => upsert d.pid (geocodeInfo (cleanPostcodes pcs) d) acc) []

/-! Dashboard Controller and Table Renderer (the D3 script). -/

/-- One render-time Feature. -/
structure Feature where
  id : String
  name : String
  latitude : ℚ
  longitude : ℚ
  prevalence : Option ℚ
  prevalence50 : Option ℚ
  patients : ℤ
  deriving DecidableEq

/-- JavaScript unary plus applied to a JSON value that is null or a
number: plus-null is 0, a number is itself. A none result would be
NaN, which no null-or-number input produces. -/
def jsNum (v : Option ℚ) : Option ℚ :=
  match v with
  | none => some 0
  | some q => some q

/-- The feature-preparation loop of updateDashboard: walk
practice_info in order, skip practices without an entry for the
selected condition, coerce the coordinates with unary plus, skip when
either coercion is NaN, and otherwise emit the Feature. -/
def mkFeatures (pinfo : List (String × PracticeInfo))
    (cd : List (String × CondMetric)) : List Feature :=
  pinfo.filterMap
    (fun pr =>
      match cd.lookup pr.1 with
      | none => none
      | some m =>
        match jsNum pr.2.latitude, jsNum pr.2.longitude with
        | some la, some lo =>
          some { id := pr.1, name := pr.2.name, latitude := la, longitude := lo
                 prevalence := m.prevalence_per_1000
                 prevalence50 := m.prevalence_over50_per_1000
                 patients := m.patients }
        | _, _ => none)

/-- Stable insertion step for the descending-by-patients order: walk
past every element with strictly more patients, so an element is
placed before the equal-count elements that follow it in the input. -/
def insertFeat (x : Feature) : List Feature → List Feature
  | [] => [x]
  | y :: ys => if x.patients < y.patients then y :: insertFeat x ys else x :: y :: ys

/-- Model of features.slice().sort with the d3.descending comparator
on patients: the ECMAScript sort is stable, and a stable sort under
this comparator produces exactly one list, computed here by stable
insertion sort. -/
def sortFeatures (l : List Feature) : List Feature :=
  l.foldr insertFeat []

def pageSize : Nat := 10

/-- Math.ceil(length / pageSize) over the naturals. -/
def totalPages (n : Nat) : Nat := (n + pageSize - 1) / pageSize

/-- The slice of rows shown on 1-based page cp:
slice((cp - 1) * pageSize, cp * pageSize). -/
def pageSlice (l : List Feature) (cp : Nat) : List Feature :=
  (l.drop ((cp - 1) * pageSize)).take pageSize

/-- The Prev button's disabled attribute. -/
def prevDisabled (cp : Nat) : Bool := cp == 1

/-- The Next button's disabled attribute. -/
def nextDisabled (cp tp : Nat) : Bool := cp == tp

/-- renderPagination draws nothing when totalPages is at most 1. -/
def paginationShown (tp : Nat) : Bool := if tp ≤ 1 then false else true

/-- The Prev click handler's effect on the current page. -/
def prevClickStep (cp : Nat) : Nat := if 1 < cp then cp - 1 else cp

/-- The Next click handler's effect on the current page. -/
def nextClickStep (tp cp : Nat) : Nat := if cp < tp then cp + 1 else cp

/-- Controller state: the length of currentTableData and the 1-based
currentPage. -/
structure DashState where
  len : Nat
  page : Nat
  deriving DecidableEq

/-- The four user events that mutate the controller state. -/
inductive DashEvent where
  | condChange (n : Nat)
  | prevClick
  | nextClick
  | pageClick (p : Nat)
  deriving DecidableEq

/-- The event handlers of the dashboard script: a condition change
rebuilds the table data and resets the page to 1; Prev and Next are
guarded; a page-number click jumps to that page. -/
def stepDash (s : DashState) : DashEvent → DashState
  | DashEvent.condChange n => { len := n, page := 1 }
  | DashEvent.prevClick => { len := s.len, page := prevClickStep s.page }
  | DashEvent.nextClick => { len := s.len, page := nextClickStep (totalPages s.len) s.page }
  | DashEvent.pageClick p => { len := s.len, page := p }

/-- Which events the rendered page can actually deliver: a
page-number click exists only for a rendered page number. -/
abbrev validEvent (s : DashState) : DashEvent → Prop
  | DashEvent.pageClick p => 1 ≤ p ∧ p ≤ totalPages s.len
  | _ => True

/-- The pagination-cursor invariant of the controller. -/
abbrev pagInv (s : DashState) : Prop :=
  1 ≤ s.page ∧ s.page ≤ max (totalPages s.len) 1

/-! Arithmetic side conditions used by the aggregation theorems. -/

/-- A rational that is an integer. -/
def IsIntQ (q : ℚ) : Prop := ∃ n : ℤ, q = (n : ℚ)

/-- Decidable integrality of a cell: an NA cell counts as integral
because it contributes zero to every NA-dropping sum. -/
abbrev intCell (v : Option ℚ) : Prop := (v.getD 0).den = 1

/-- Decidable non-negativity of a cell, with NA counting as zero. -/
abbrev nonnegCell (v : Option ℚ) : Prop := 0 ≤ v.getD 0

/-- A placeholder table row used to exercise the pagination theorems
on a concrete 23-row table. -/
def dummyFeature : Feature :=
  { id := "", name := "", latitude := 0, longitude := 0
    prevalence := none, prevalence50 := none, patients := 0 }

/-! General helper lemmas. -/

theorem takeWhile_append_all {α : Type} (p : α → Bool) (xs : List α) (y : α)
    (ys : List α) (hxs : ∀ x ∈ xs, p x = true) (hy : p y = false) :
    ((xs ++ y :: ys).takeWhile p) = xs := by
  induction xs with
  | nil => simp [List.takeWhile_cons, hy]
  | cons a as ih =>
    have ha : p a = true := hxs a (List.mem_cons_self a as)
    simp [List.takeWhile_cons, ha, ih (fun x hx => hxs x (List.mem_cons_of_mem a hx))]

theorem dropWhile_append_all {α : Type} (p : α → Bool) (xs : List α) (y : α)
    (ys : List α) (hxs : ∀ x ∈ xs, p x = true) (hy : p y = false) :
    ((xs ++ y :: ys).dropWhile p) = y :: ys := by
  induction xs with
  | nil => simp [List.dropWhile_cons, hy]
  | cons a as ih =>
    have ha : p a = true := hxs a (List.mem_cons_self a as)
    simp [List.dropWhile_cons, ha, ih (fun x hx => hxs x (List.mem_cons_of_mem a hx))]

/-! Lemmas about clean_register_name (claim C4). -/

theorem stripRepSuffix_dot_digits (w d : List Char) (hd : d ≠ [])
    (hdig : ∀ c ∈ d, c.isDigit = true) :
    stripRepSuffix (w ++ '.' :: d) = w := by
  have hrev : (w ++ '.' :: d).reverse = d.reverse ++ '.' :: w.reverse := by
    simp
  have hdigr : ∀ c ∈ d.reverse, Char.isDigit c = true := by
    intro c hc; exact hdig c (List.mem_reverse.mp hc)
  have hdot : Char.isDigit '.' = false := by decide
  have htw : ((w ++ '.' :: d).reverse.takeWhile Char.isDigit) = d.reverse := by
    rw [hrev]; exact takeWhile_append_all _ _ _ _ hdigr hdot
  have hdw : ((w ++ '.' :: d).reverse.dropWhile Char.isDigit) = '.' :: w.reverse := by
    rw [hrev]; exact dropWhile_append_all _ _ _ _ hdigr hdot
  rw [stripRepSuffix, htw, hdw]
  simp [hd]

theorem stripRepSuffix_age_plus (w d : List Char) :
    stripRepSuffix (w ++ ' ' :: d ++ ['+']) = w ++ ' ' :: d ++ ['+'] := by
  have hrev : (w ++ ' ' :: d ++ ['+']).reverse = '+' :: (d.reverse ++ ' ' :: w.reverse) := by
    simp
  have htw : ((w ++ ' ' :: d ++ ['+']).reverse.takeWhile Char.isDigit) = [] := by
    rw [hrev]; simp [List.takeWhile_cons]
  rw [stripRepSuffix, htw]
  simp

theorem stripAgeSuffix_space_digits (w d : List Char) (hd : d ≠ [])
    (hdig : ∀ c ∈ d, c.isDigit = true) :
    stripAgeSuffix (w ++ ' ' :: d ++ ['+']) = w := by
  have hrev : (w ++ ' ' :: d ++ ['+']).reverse = '+' :: (d.reverse ++ ' ' :: w.reverse) := by
    simp
  have hdigr : ∀ c ∈ d.reverse, Char.isDigit c = true := by
    intro c hc; exact hdig c (List.mem_reverse.mp hc)
  have hsp : Char.isDigit ' ' = false := by decide
  have htw : ((d.reverse ++ ' ' :: w.reverse).takeWhile Char.isDigit) = d.reverse :=
    takeWhile_append_all _ _ _ _ hdigr hsp
  have hdw : ((d.reverse ++ ' ' :: w.reverse).dropWhile Char.isDigit) = ' ' :: w.reverse :=
    dropWhile_append_all _ _ _ _ hdigr hsp
  rw [stripAgeSuffix, hrev]
  simp [htw, hdw, hd]

/-- C4: base-condition derivation strips a trailing dot-digits
repetition suffix and a trailing space-digits-plus age-band suffix
from the register portion, then trims; in particular both forms of
the repeated Stroke register reduce to the bare name. The first
conjunct also records that after removing a dot-digits suffix the
age-band suffix of the remaining prefix is still stripped, exactly as
the two sequential regex replacements of the R script do. -/
theorem c4_clean_register_name :
    (∀ w d : List Char, d ≠ [] → (∀ c ∈ d, c.isDigit = true) →
       clean_register_name (w ++ '.' :: d) = trimChars (stripAgeSuffix w))
    ∧ (∀ w d : List Char, d ≠ [] → (∀ c ∈ d, c.isDigit = true) →
       clean_register_name (w ++ ' ' :: d ++ ['+']) = trimChars w)
    ∧ clean_register_name "Stroke.2".data = "Stroke".data
    ∧ clean_register_name "Stroke 17+".data = "Stroke".data := by
  refine ⟨?_, ?_, by decide, by decide⟩
  · intro w d hd hdig
    rw [clean_register_name, stripRepSuffix_dot_digits w d hd hdig]
  · intro w d hd hdig
    rw [clean_register_name, stripRepSuffix_age_plus w d,
      stripAgeSuffix_space_digits w d hd hdig]

/-- C4 witness: the general suffix-stripping conjuncts of
c4_clean_register_name applied at concrete inputs. -/
theorem c4_witness :
    ((['2'] : List Char) ≠ [] ∧ ∀ c ∈ (['2'] : List Char), c.isDigit = true)
    ∧ clean_register_name ("Stroke".data ++ '.' :: ['2']) =
        trimChars (stripAgeSuffix "Stroke".data)
    ∧ clean_register_name ("Stroke".data ++ ' ' :: ['1', '7'] ++ ['+']) =
        trimChars "Stroke".data :=
  ⟨⟨by decide, by decide⟩,
    c4_clean_register_name.1 "Stroke".data ['2'] (by decide) (by decide),
    c4_clean_register_name.2.1 "Stroke".data ['1', '7'] (by decide) (by decide)⟩

/-! Lemmas about collapse_headers and column de-duplication (claim C3). -/

theorem mem_dedupColsAux (ks : List (List Char)) :
    ∀ (seen : List (List Char)) (i j : Nat) (k : List Char),
      ((j, k) ∈ dedupColsAux seen i ks) ↔
        (k ∉ seen ∧ ∃ pre suf, ks = pre ++ k :: suf ∧ j = i + pre.length ∧ k ∉ pre) := by
  induction ks with
  | nil =>
    intro seen i j k
    simp only [dedupColsAux, List.not_mem_nil, false_iff, not_and]
    rintro _ ⟨pre, suf, heq, _, _⟩
    exact absurd heq (by simp)
  | cons a as ih =>
    intro seen i j k
    rw [dedupColsAux]
    by_cases ha : a ∈ seen
    · rw [if_pos ha, ih]
      constructor
      · rintro ⟨hks, pre, suf, heq, hj, hpre⟩
        have hka : k ≠ a := fun h => hks (h ▸ ha)
        refine ⟨hks, a :: pre, suf, by rw [heq]; rfl, ?_, ?_⟩
        · simp only [List.length_cons]; omega
        · simp only [List.mem_cons, not_or]; exact ⟨hka, hpre⟩
      · rintro ⟨hks, pre, suf, heq, hj, hpre⟩
        cases pre with
        | nil =>
          simp only [List.nil_append, List.cons.injEq] at heq
          exact absurd (heq.1 ▸ ha) hks
        | cons b pre₂ =>
          simp only [List.cons_append, List.cons.injEq] at heq
          refine ⟨hks, pre₂, suf, heq.2, ?_, ?_⟩
          · simp only [List.length_cons] at hj; omega
          · exact fun hk => hpre (List.mem_cons_of_mem b hk)
    · rw [if_neg ha, List.mem_cons, ih]
      constructor
      · rintro (hjk | ⟨hks, pre, suf, heq, hj, hpre⟩)
        · have hj : j = i := congrArg Prod.fst hjk
          have hk : k = a := congrArg Prod.snd hjk
          exact ⟨hk ▸ ha, [], as, by rw [hk]; rfl, by simp [hj], by simp⟩
        · have hka : k ≠ a := fun h => hks (by simp [h])
          have hkseen : k ∉ seen := fun h => hks (List.mem_cons_of_mem a h)
          refine ⟨hkseen, a :: pre, suf, by rw [heq]; rfl, ?_, ?_⟩
          · simp only [List.length_cons]; omega
          · simp only [List.mem_cons, not_or]; exact ⟨hka, hpre⟩
      · rintro ⟨hks, pre, suf, heq, hj, hpre⟩
        cases pre with
        | nil =>
          simp only [List.nil_append, List.cons.injEq] at heq
          simp only [List.length_nil] at hj
          left
          rw [hj, heq.1]
          simp
        | cons b pre₂ =>
          simp only [List.cons_append, List.cons.injEq] at heq
          right
          have hka : k ≠ b := fun h => hpre (by simp [h])
          refine ⟨?_, pre₂, suf, heq.2, ?_, fun hk => hpre (List.mem_cons_of_mem b hk)⟩
          · simp only [List.mem_cons, not_or]
            exact ⟨heq.1 ▸ hka, hks⟩
          · simp only [List.length_cons] at hj; omega

/-- C3 (amended): the canonical key of a column is the bar-joined
pair when both processed header cells are non-empty, the non-empty
cell when exactly one is non-empty, and empty when both are empty;
de-duplication then keeps, for each canonical key, exactly the first
physical column carrying that key. Columns whose canonical key is
empty are NOT dropped entirely: the empty key is de-duplicated like
any other key, so the first empty-key column is kept (see the
counterexample theorem). -/
theorem c3_header_keys :
    (∀ a b : List Char,
       (a ≠ [] → b ≠ [] → combineKey a b = a ++ '|' :: b)
       ∧ (a ≠ [] → b = [] → combineKey a b = a)
       ∧ (a = [] → b ≠ [] → combineKey a b = b)
       ∧ (a = [] → b = [] → combineKey a b = []))
    ∧ (∀ hdr : List (Option (List Char) × Option (List Char)),
        collapse_headers hdr = hdr.map (fun p => combineKey (blankCell p.1) (blankCell p.2)))
    ∧ (∀ (hdr : List (Option (List Char) × Option (List Char))) (j : Nat) (k : List Char),
        ((j, k) ∈ normalizeHeader hdr) ↔
          (∃ pre suf, collapse_headers hdr = pre ++ k :: suf ∧ j = pre.length ∧ k ∉ pre)) := by
  refine ⟨?_, fun _ => rfl, ?_⟩
  · intro a b
    refine ⟨?_, ?_, ?_, ?_⟩ <;> intro h₁ h₂ <;> simp [combineKey, h₁, h₂]
  · intro hdr j k
    rw [normalizeHeader, mem_dedupColsAux]
    simp

/-- C3 counterexample: a column whose two header cells are both NA
gets the empty canonical key, and the first such column survives
de-duplication instead of being dropped entirely, so the claim's
"such columns are dropped entirely" fails on this input (the second
empty-key column is the one removed, as an ordinary duplicate). -/
theorem c3_counterexample :
    normalizeHeader [(some ['A'], none), (none, none), (none, none)] =
      [(0, ['A']), (1, [])] ∧ (1, ([] : List Char)) ∈
        normalizeHeader [(some ['A'], none), (none, none), (none, none)] := by
  constructor <;> decide

/-- C3 witness: the key-formation conjuncts of c3_header_keys applied
at concrete header cells. -/
theorem c3_witness :
    ((['A'] : List Char) ≠ [] ∧ (['B'] : List Char) ≠ [])
    ∧ combineKey ['A'] ['B'] = ['A', '|', 'B']
    ∧ combineKey ['A'] [] = ['A'] :=
  ⟨⟨by decide, by decide⟩,
    (c3_header_keys.1 ['A'] ['B']).1 (by decide) (by decide),
    (c3_header_keys.1 ['A'] []).2.1 (by decide) rfl⟩

/-! Arithmetic lemmas for the aggregation theorems. -/

theorem isIntQ_zero : IsIntQ 0 := ⟨0, by norm_num⟩

theorem isIntQ_add {a b : ℚ} (ha : IsIntQ a) (hb : IsIntQ b) : IsIntQ (a + b) := by
  obtain ⟨m, rfl⟩ := ha
  obtain ⟨n, rfl⟩ := hb
  exact ⟨m + n, by push_cast; ring⟩

theorem intCell_isIntQ {v : Option ℚ} (h : intCell v) : IsIntQ (v.getD 0) := by
  refine ⟨(v.getD 0).num, ?_⟩
  conv_lhs => rw [← Rat.num_div_den (v.getD 0)]
  rw [h]
  norm_num

theorem truncQ_intCast (n : ℤ) : truncQ (n : ℚ) = n := by
  rw [truncQ]
  split <;> simp

theorem isIntQ_truncQ_cast {q : ℚ} (h : IsIntQ q) : ((truncQ q : ℤ) : ℚ) = q := by
  obtain ⟨n, rfl⟩ := h
  rw [truncQ_intCast]

theorem truncQ_pos {q : ℚ} (h : IsIntQ q) (hq : 0 < q) : 0 < truncQ q := by
  have := isIntQ_truncQ_cast h
  exact_mod_cast this ▸ hq

theorem sumNA_int {vs : List (Option ℚ)} (h : ∀ v ∈ vs, intCell v) :
    IsIntQ (sumNA vs) := by
  induction vs with
  | nil => exact isIntQ_zero
  | cons v vs ih =>
    have hv := intCell_isIntQ (h v (List.mem_cons_self v vs))
    have hvs := ih (fun x hx => h x (List.mem_cons_of_mem v hx))
    rw [sumNA] at hvs ⊢
    simpa using isIntQ_add hv hvs

theorem sumNA_nonneg {vs : List (Option ℚ)} (h : ∀ v ∈ vs, nonnegCell v) :
    0 ≤ sumNA vs := by
  induction vs with
  | nil => simp [sumNA]
  | cons v vs ih =>
    have hv := h v (List.mem_cons_self v vs)
    have hvs := ih (fun x hx => h x (List.mem_cons_of_mem v hx))
    rw [sumNA] at hvs ⊢
    simp only [List.map_cons, List.sum_cons]
    exact add_nonneg hv hvs

theorem rowPatients_int {pt : List String} {r : PrevRow}
    (h : ∀ c ∈ pt, intCell (getCell r c)) : IsIntQ (rowPatients pt r) := by
  rw [rowPatients]
  refine sumNA_int ?_
  intro v hv
  obtain ⟨c, hc, rfl⟩ := List.mem_map.mp hv
  exact h c hc

theorem rowPatients_nonneg {pt : List String} {r : PrevRow}
    (h : ∀ c ∈ pt, nonnegCell (getCell r c)) : 0 ≤ rowPatients pt r := by
  rw [rowPatients]
  refine sumNA_nonneg ?_
  intro v hv
  obtain ⟨c, hc, rfl⟩ := List.mem_map.mp hv
  exact h c hc

/-! Association-list lemmas for upsert and lookup. -/

theorem mem_keys_upsert {β : Type} (l : List (String × β)) (k : String) (v : β)
    (k₂ : String) :
    (k₂ ∈ (upsert k v l).map Prod.fst) ↔ (k₂ = k ∨ k₂ ∈ l.map Prod.fst) := by
  induction l with
  | nil => simp [upsert]
  | cons e l ih =>
    rw [upsert]
    by_cases he : e.1 = k
    · rw [if_pos (by rw [← he])]
      simp only [List.map_cons, List.mem_cons, he]
      tauto
    · rw [if_neg (by exact fun h => he (by rw [h]))]
      simp only [List.map_cons, List.mem_cons, ih]
      tauto

theorem mem_upsert_cases {β : Type} (l : List (String × β)) (k : String) (v : β)
    (e : String × β) (h : e ∈ upsert k v l) : e = (k, v) ∨ e ∈ l := by
  induction l with
  | nil => simpa [upsert] using h
  | cons e₂ l ih =>
    rw [upsert] at h
    by_cases he : e₂.1 = k
    · rw [if_pos (by rw [← he])] at h
      rcases List.mem_cons.mp h with h | h
      · exact Or.inl h
      · exact Or.inr (List.mem_cons_of_mem e₂ h)
    · rw [if_neg (by exact fun hx => he (by rw [hx]))] at h
      rcases List.mem_cons.mp h with h | h
      · exact Or.inr (h ▸ List.mem_cons_self e₂ l)
      · rcases ih h with h | h
        · exact Or.inl h
        · exact Or.inr (List.mem_cons_of_mem e₂ h)

theorem upsert_of_fresh {β : Type} (l : List (String × β)) (k : String) (v : β)
    (h : k ∉ l.map Prod.fst) : upsert k v l = l ++ [(k, v)] := by
  induction l with
  | nil => rfl
  | cons e l ih =>
    have hek : ¬ e.1 = k := by
      intro hx
      exact h (by simp [hx])
    rw [upsert, if_neg hek, ih (fun hx => h (List.mem_cons_of_mem e.1 hx))]
    rfl

theorem lookup_isSome_iff {β : Type} (l : List (String × β)) (k : String) :
    ((l.lookup k).isSome = true) ↔ k ∈ l.map Prod.fst := by
  induction l with
  | nil => simp [List.lookup]
  | cons e l ih =>
    rw [List.lookup]
    by_cases he : k = e.1
    · simp [he]
    · have : (k == e.1) = false := beq_false_of_ne he
      simp [this, ih, he]

/-! Lemmas about the per-condition row loop. -/

theorem condFoldAux_mem_keys (pt pr ss : List String) :
    ∀ (rows : List PrevRow) (t : ℚ) (m : List (String × CondMetric)) (k : String),
      (k ∈ (condFoldAux pt pr ss rows (t, m)).2.map Prod.fst) ↔
        (k ∈ m.map Prod.fst ∨ ∃ r ∈ rows, r.pid = k ∧ rowPatients pt r ≠ 0) := by
  intro rows
  induction rows with
  | nil => intro t m k; simp [condFoldAux]
  | cons r rs ih =>
    intro t m k
    rw [condFoldAux]
    by_cases h : rowPatients pt r = 0
    · rw [if_pos h, ih]
      simp only [List.mem_cons]
      constructor
      · rintro (hm | ⟨r₂, hr₂, hpid, hne⟩)
        · exact Or.inl hm
        · exact Or.inr ⟨r₂, Or.inr hr₂, hpid, hne⟩
      · rintro (hm | ⟨r₂, hr₂ | hr₂, hpid, hne⟩)
        · exact Or.inl hm
        · exact absurd (hr₂ ▸ h) hne
        · exact Or.inr ⟨r₂, hr₂, hpid, hne⟩
    · rw [if_neg h, ih]
      rw [mem_keys_upsert]
      simp only [List.mem_cons]
      constructor
      · rintro ((hk | hm) | ⟨r₂, hr₂, hpid, hne⟩)
        · exact Or.inr ⟨r, Or.inl rfl, hk.symm, h⟩
        · exact Or.inl hm
        · exact Or.inr ⟨r₂, Or.inr hr₂, hpid, hne⟩
      · rintro (hm | ⟨r₂, hr₂ | hr₂, hpid, hne⟩)
        · exact Or.inl (Or.inr hm)
        · exact Or.inl (Or.inl (by rw [← hpid, hr₂]))
        · exact Or.inr ⟨r₂, hr₂, hpid, hne⟩

theorem condFoldAux_mem_values (pt pr ss : List String) :
    ∀ (rows : List PrevRow) (t : ℚ) (m : List (String × CondMetric))
      (e : String × CondMetric),
      e ∈ (condFoldAux pt pr ss rows (t, m)).2 →
        e ∈ m ∨ ∃ r ∈ rows, r.pid = e.1 ∧ rowPatients pt r ≠ 0 ∧
          e.2 = rowMetric pt pr ss r := by
  intro rows
  induction rows with
  | nil => intro t m e he; exact Or.inl (by simpa [condFoldAux] using he)
  | cons r rs ih =>
    intro t m e he
    rw [condFoldAux] at he
    by_cases h : rowPatients pt r = 0
    · rw [if_pos h] at he
      rcases ih _ _ _ he with hm | ⟨r₂, hr₂, hpid, hne, hmet⟩
      · exact Or.inl hm
      · exact Or.inr ⟨r₂, List.mem_cons_of_mem r hr₂, hpid, hne, hmet⟩
    · rw [if_neg h] at he
      rcases ih _ _ _ he with hm | ⟨r₂, hr₂, hpid, hne, hmet⟩
      · rcases mem_upsert_cases _ _ _ _ hm with hkv | hm₂
        · refine Or.inr ⟨r, List.mem_cons_self r rs, ?_, h, ?_⟩
          · rw [hkv]
          · rw [hkv]
        · exact Or.inl hm₂
      · exact Or.inr ⟨r₂, List.mem_cons_of_mem r hr₂, hpid, hne, hmet⟩

theorem condFoldAux_fst_int (pt pr ss : List String) :
    ∀ (rows : List PrevRow) (t : ℚ) (m : List (String × CondMetric)),
      (∀ r ∈ rows, IsIntQ (rowPatients pt r)) → IsIntQ t →
      IsIntQ (condFoldAux pt pr ss rows (t, m)).1 := by
  intro rows
  induction rows with
  | nil => intro t m _ ht; exact ht
  | cons r rs ih =>
    intro t m hrows ht
    rw [condFoldAux]
    by_cases h : rowPatients pt r = 0
    · rw [if_pos h]
      exact ih _ _ (fun x hx => hrows x (List.mem_cons_of_mem r hx)) ht
    · rw [if_neg h]
      exact ih _ _ (fun x hx => hrows x (List.mem_cons_of_mem r hx))
        (isIntQ_add ht (hrows r (List.mem_cons_self r rs)))

theorem condFoldAux_total_eq_sum (pt pr ss : List String) :
    ∀ (rows : List PrevRow) (t : ℚ) (m : List (String × CondMetric)),
      (∀ r ∈ rows, IsIntQ (rowPatients pt r)) →
      (∀ r ∈ rows, r.pid ∉ m.map Prod.fst) →
      ((rows.map PrevRow.pid).Nodup) →
      (t = (((m.map (fun e => e.2.patients)).sum : ℤ) : ℚ)) →
      (condFoldAux pt pr ss rows (t, m)).1 =
        ((((condFoldAux pt pr ss rows (t, m)).2.map (fun e => e.2.patients)).sum : ℤ) : ℚ) := by
  intro rows
  induction rows with
  | nil => intro t m _ _ _ ht; exact ht
  | cons r rs ih =>
    intro t m hint hfresh hnd ht
    have hint₂ : ∀ x ∈ rs, IsIntQ (rowPatients pt x) :=
      fun x hx => hint x (List.mem_cons_of_mem r hx)
    have hnd₂ : (rs.map PrevRow.pid).Nodup := (List.nodup_cons.mp hnd).2
    rw [condFoldAux]
    by_cases h : rowPatients pt r = 0
    · rw [if_pos h]
      exact ih _ _ hint₂ (fun x hx => hfresh x (List.mem_cons_of_mem r hx)) hnd₂ ht
    · rw [if_neg h]
      have hrf : r.pid ∉ m.map Prod.fst := hfresh r (List.mem_cons_self r rs)
      refine ih _ _ hint₂ ?_ hnd₂ ?_
      · intro x hx
        rw [mem_keys_upsert]
        rintro (hpid | hmem)
        · exact (List.nodup_cons.mp hnd).1 (hpid ▸ List.mem_map_of_mem PrevRow.pid hx)
        · exact hfresh x (List.mem_cons_of_mem r hx) hmem
      · rw [upsert_of_fresh _ _ _ hrf]
        have hcast : ((truncQ (rowPatients pt r) : ℤ) : ℚ) = rowPatients pt r :=
          isIntQ_truncQ_cast (hint r (List.mem_cons_self r rs))
        rw [ht]
        simp only [List.map_append, List.map_cons, List.map_nil, List.sum_append,
          List.sum_cons, List.sum_nil, rowMetric]
        push_cast
        rw [hcast]
        ring

/-- C1 (amended): for a condition built from rows whose practice ids
are pairwise distinct and whose mapped patient-count cells are whole
numbers (both guaranteed by the data model of the source extract),
the stored national total equals the sum of the stored per-practice
patient counts. Without distinct ids the national total also counts
rows whose practice entry was later overwritten, and without whole
numbers the as.integer truncations of total and entries diverge; see
the counterexample theorem. -/
theorem c1_total_patients (pt pr ss cn : List String) (rows : List PrevRow)
    (hnd : (rows.map PrevRow.pid).Nodup)
    (hint : ∀ r ∈ rows, ∀ c ∈ pt, intCell (getCell r c)) :
    (computeCondition pt pr ss cn rows).totals.total_patients =
      ((computeCondition pt pr ss cn rows).data.map (fun e => e.2.patients)).sum := by
  have hints : ∀ r ∈ rows, IsIntQ (rowPatients pt r) :=
    fun r hr => rowPatients_int (hint r hr)
  have htot : (computeCondition pt pr ss cn rows).totals.total_patients =
      truncQ (condFoldAux pt pr ss rows (0, [])).1 := rfl
  have hdata : (computeCondition pt pr ss cn rows).data =
      (condFoldAux pt pr ss rows (0, [])).2 := rfl
  have hsum := condFoldAux_total_eq_sum pt pr ss rows 0 [] hints (by simp) hnd (by simp)
  rw [htot, hdata, hsum, truncQ_intCast]

/-- C1 counterexample: two kept rows carry the same practice id, so
the per-practice mapping retains only the last row's entry (2
patients) while the national total still counts both rows (3
patients); the claimed equality fails on this extract. -/
theorem c1_counterexample :
    ¬ ((computeCondition ["n"] [] [] []
          [⟨"P", [("n", some 1)]⟩, ⟨"P", [("n", some 2)]⟩]).totals.total_patients =
        ((computeCondition ["n"] [] [] []
          [⟨"P", [("n", some 1)]⟩, ⟨"P", [("n", some 2)]⟩]).data.map
            (fun e => e.2.patients)).sum) := by
  have h₁ : (computeCondition ["n"] [] [] []
      [⟨"P", [("n", some 1)]⟩, ⟨"P", [("n", some 2)]⟩]).totals.total_patients = 3 := by
    norm_num [computeCondition, condFold, condFoldAux, rowPatients, sumNA, getCell,
      rowMetric, meanNA, truncQ, upsert, List.lookup]
  have h₂ : ((computeCondition ["n"] [] [] []
      [⟨"P", [("n", some 1)]⟩, ⟨"P", [("n", some 2)]⟩]).data.map
        (fun e => e.2.patients)).sum = 2 := by
    norm_num [computeCondition, condFold, condFoldAux, rowPatients, sumNA, getCell,
      rowMetric, meanNA, truncQ, upsert, List.lookup]
  rw [h₁, h₂]
  decide

/-- C1 witness: c1_total_patients applied to a two-practice extract
with distinct ids and integer counts. -/
theorem c1_witness :
    ((([⟨"P", [("n", some 2)]⟩, ⟨"Q", [("n", some 3)]⟩] : List PrevRow).map
        PrevRow.pid).Nodup
     ∧ (∀ r ∈ ([⟨"P", [("n", some 2)]⟩, ⟨"Q", [("n", some 3)]⟩] : List PrevRow),
          ∀ c ∈ ["n"], intCell (getCell r c)))
    ∧ (computeCondition ["n"] [] [] []
        [⟨"P", [("n", some 2)]⟩, ⟨"Q", [("n", some 3)]⟩]).totals.total_patients =
      ((computeCondition ["n"] [] [] []
        [⟨"P", [("n", some 2)]⟩, ⟨"Q", [("n", some 3)]⟩]).data.map
          (fun e => e.2.patients)).sum :=
  ⟨⟨by decide, by decide⟩,
    c1_total_patients ["n"] [] [] [] _ (by decide) (by decide)⟩

/-- C2 (amended): assuming the mapped patient-count cells are
non-negative whole numbers (as the data model of the source extract
guarantees), a practice id has an entry in the condition's mapping
exactly when some kept row with that id has a strictly positive
patient sum, and every stored entry has patients strictly greater
than zero. On arbitrary numeric cells the code stores an entry
exactly when the sum is NONZERO, so a negative sum is stored rather
than excluded; see the counterexample theorem. -/
theorem c2_entry_iff (pt pr ss cn : List String) (rows : List PrevRow)
    (hcell : ∀ r ∈ rows, ∀ c ∈ pt,
      nonnegCell (getCell r c) ∧ intCell (getCell r c)) :
    (∀ k : String,
       (((computeCondition pt pr ss cn rows).data.lookup k).isSome = true ↔
         ∃ r ∈ rows, r.pid = k ∧ 0 < rowPatients pt r))
    ∧ (∀ e ∈ (computeCondition pt pr ss cn rows).data, 0 < e.2.patients) := by
  have hdata : (computeCondition pt pr ss cn rows).data =
      (condFoldAux pt pr ss rows (0, [])).2 := rfl
  have hpos : ∀ r ∈ rows, (rowPatients pt r ≠ 0 ↔ 0 < rowPatients pt r) := by
    intro r hr
    have h0 : 0 ≤ rowPatients pt r :=
      rowPatients_nonneg (fun c hc => (hcell r hr c hc).1)
    constructor
    · exact fun hne => lt_of_le_of_ne h0 (fun h => hne h.symm)
    · exact fun hlt => ne_of_gt hlt
  constructor
  · intro k
    rw [hdata, lookup_isSome_iff, condFoldAux_mem_keys]
    simp only [List.map_nil, List.not_mem_nil, false_or]
    constructor
    · rintro ⟨r, hr, hpid, hne⟩
      exact ⟨r, hr, hpid, (hpos r hr).mp hne⟩
    · rintro ⟨r, hr, hpid, hlt⟩
      exact ⟨r, hr, hpid, (hpos r hr).mpr hlt⟩
  · intro e he
    rw [hdata] at he
    rcases condFoldAux_mem_values pt pr ss rows 0 [] e he with hm | ⟨r, hr, _, hne, hmet⟩
    · exact absurd hm (List.not_mem_nil e)
    · have hlt : 0 < rowPatients pt r := (hpos r hr).mp hne
      have hintq : IsIntQ (rowPatients pt r) :=
        rowPatients_int (fun c hc => (hcell r hr c hc).2)
      rw [hmet, rowMetric]
      exact truncQ_pos hintq hlt

/-- C2 counterexample: a kept row with patient-count cell -1 has a
nonzero but NOT strictly positive sum, yet the code stores an entry
for it (with patients = -1, which also violates the claimed
patients-positive invariant). -/
theorem c2_counterexample :
    (computeCondition ["c"] [] [] [] [⟨"P", [("c", some (-1))]⟩]).data =
      [("P", { patients := -1, prevalence_per_1000 := none
               prevalence_over50_per_1000 := none })]
    ∧ ¬ (0 < rowPatients ["c"] ⟨"P", [("c", some (-1))]⟩) := by
  constructor
  · norm_num [computeCondition, condFold, condFoldAux, rowPatients, sumNA, getCell,
      rowMetric, meanNA, truncQ, upsert, List.lookup, Int.ceil_neg]
  · norm_num [rowPatients, sumNA, getCell, List.lookup]

/-- C2 witness: c2_entry_iff applied to a one-practice extract with a
positive integer count. -/
theorem c2_witness :
    (∀ r ∈ ([⟨"P", [("c", some 2)]⟩] : List PrevRow), ∀ c ∈ ["c"],
       nonnegCell (getCell r c) ∧ intCell (getCell r c))
    ∧ ((∀ k : String,
         (((computeCondition ["c"] [] [] [] [⟨"P", [("c", some 2)]⟩]).data.lookup k).isSome = true ↔
           ∃ r ∈ ([⟨"P", [("c", some 2)]⟩] : List PrevRow), r.pid = k ∧
             0 < rowPatients ["c"] r))
       ∧ (∀ e ∈ (computeCondition ["c"] [] [] [] [⟨"P", [("c", some 2)]⟩]).data,
            0 < e.2.patients)) :=
  ⟨by decide, c2_entry_iff ["c"] [] [] [] _ (by decide)⟩

/-- No integer multiple of 10 to the minus 10 equals one third of a
thousand; used to show that the stored, rounded rate differs from the
exact quotient. -/
theorem div_tenPow_ne_third (z : ℤ) : ((z : ℚ) / 10 ^ 10) ≠ 1 / 3 * 1000 := by
  intro h
  rw [div_eq_iff (by norm_num : ((10 : ℚ) ^ 10) ≠ 0)] at h
  have h3 : ((3 * z : ℤ) : ℚ) = ((10 ^ 13 : ℤ) : ℚ) := by push_cast; linarith
  have h4 : (3 * z : ℤ) = 10 ^ 13 := by exact_mod_cast h3
  omega

/-- C5 (amended): with non-negative list-size and subset-population
cells and whole-number patient-count cells (as the data model of the
source extract guarantees), the stored national full rate is null
exactly when the whole-practice-set list-size sum is zero (the
denominator is never unknown, because NA values are dropped from the
sum), and otherwise equals total patients divided by that denominator
times 1000, ROUNDED TO 10 DECIMAL DIGITS; the subset rate follows the
same rule over the subset target-population sum and is null for every
condition when the subset column is absent from the source. -/
theorem c5_national_rates (pt pr ss cn : List String) (rows : List PrevRow)
    (hls : ∀ r ∈ rows, nonnegCell (getCell r listSizeCol))
    (hss : ∀ r ∈ rows, nonnegCell (getCell r subsetPopCol))
    (hint : ∀ r ∈ rows, ∀ c ∈ pt, intCell (getCell r c)) :
    ((computeCondition pt pr ss cn rows).totals.prevalence_per_1000 = none ↔
       populationTotal rows = 0)
    ∧ (populationTotal rows ≠ 0 →
        (computeCondition pt pr ss cn rows).totals.prevalence_per_1000 =
          some (round10 (((computeCondition pt pr ss cn rows).totals.total_patients : ℚ) /
            populationTotal rows * 1000)))
    ∧ (subsetPopCol ∉ cn →
        (computeCondition pt pr ss cn rows).totals.prevalence_over50_per_1000 = none)
    ∧ (subsetPopCol ∈ cn →
        (((computeCondition pt pr ss cn rows).totals.prevalence_over50_per_1000 = none ↔
           subsetPopulationTotal rows = 0)
         ∧ (subsetPopulationTotal rows ≠ 0 →
             (computeCondition pt pr ss cn rows).totals.prevalence_over50_per_1000 =
               some (round10 (((computeCondition pt pr ss cn rows).totals.total_patients : ℚ) /
                 subsetPopulationTotal rows * 1000))))) := by
  have hfull : (computeCondition pt pr ss cn rows).totals.prevalence_per_1000 =
      (if 0 < populationTotal rows then
         some ((condFoldAux pt pr ss rows (0, [])).1 / populationTotal rows * 1000)
       else none).map round10 := rfl
  have h50 : (computeCondition pt pr ss cn rows).totals.prevalence_over50_per_1000 =
      (match population50Total cn rows with
       | none => none
       | some p =>
         if 0 < p then
           some ((condFoldAux pt pr ss rows (0, [])).1 / p * 1000)
         else none).map round10 := rfl
  have hfint : IsIntQ (condFoldAux pt pr ss rows (0, [])).1 :=
    condFoldAux_fst_int pt pr ss rows 0 []
      (fun r hr => rowPatients_int (hint r hr)) isIntQ_zero
  have htotc : (((computeCondition pt pr ss cn rows).totals.total_patients : ℤ) : ℚ) =
      (condFoldAux pt pr ss rows (0, [])).1 := by
    have h : (computeCondition pt pr ss cn rows).totals.total_patients =
        truncQ (condFoldAux pt pr ss rows (0, [])).1 := rfl
    rw [h, isIntQ_truncQ_cast hfint]
  have hpopnn : 0 ≤ populationTotal rows := by
    refine sumNA_nonneg ?_
    intro v hv
    obtain ⟨r, hr, rfl⟩ := List.mem_map.mp hv
    exact hls r hr
  have hssnn : 0 ≤ subsetPopulationTotal rows := by
    refine sumNA_nonneg ?_
    intro v hv
    obtain ⟨r, hr, rfl⟩ := List.mem_map.mp hv
    exact hss r hr
  refine ⟨?_, ?_, ?_, ?_⟩
  · rw [hfull]
    constructor
    · intro h
      by_contra hne
      have hlt : 0 < populationTotal rows := lt_of_le_of_ne hpopnn (Ne.symm hne)
      rw [if_pos hlt] at h
      exact Option.noConfusion h
    · intro h0
      rw [h0]
      simp
  · intro hne
    have hlt : 0 < populationTotal rows := lt_of_le_of_ne hpopnn (Ne.symm hne)
    rw [hfull, if_pos hlt, htotc]
    rfl
  · intro hnm
    rw [h50, population50Total, if_neg hnm]
    rfl
  · intro hm
    have hp50 : population50Total cn rows = some (subsetPopulationTotal rows) := by
      rw [population50Total, if_pos hm]
    rw [h50, hp50]
    constructor
    · constructor
      · intro h
        by_contra hne
        have hlt : 0 < subsetPopulationTotal rows := lt_of_le_of_ne hssnn (Ne.symm hne)
        simp only [hlt, if_pos] at h
        exact Option.noConfusion h
      · intro h0
        rw [h0]
        simp
    · intro hne
      have hlt : 0 < subsetPopulationTotal rows := lt_of_le_of_ne hssnn (Ne.symm hne)
      show Option.map round10
          (if 0 < subsetPopulationTotal rows then
             some ((condFoldAux pt pr ss rows (0, [])).1 / subsetPopulationTotal rows * 1000)
           else none) = _
      rw [if_pos hlt, htotc]
      rfl

/-- C5 counterexample: one practice with 1 patient and list size 3.
The stored full rate is the 10-digit rounding of 1000/3, which is not
equal to total patients divided by the denominator times 1000, so the
claimed exact equality fails (the code stores round(rate, 10)). -/
theorem c5_counterexample :
    (computeCondition ["n"] [] [] []
        [⟨"P", [("n", some 1), ("Practice List Size", some 3)]⟩]).totals.prevalence_per_1000 ≠
      some (((computeCondition ["n"] [] [] []
        [⟨"P", [("n", some 1), ("Practice List Size", some 3)]⟩]).totals.total_patients : ℚ) /
          populationTotal [⟨"P", [("n", some 1), ("Practice List Size", some 3)]⟩] * 1000) := by
  have hb : (computeCondition ["n"] [] [] []
      [⟨"P", [("n", some 1), ("Practice List Size", some 3)]⟩]).totals.prevalence_per_1000 =
      (if 0 < populationTotal [⟨"P", [("n", some 1), ("Practice List Size", some 3)]⟩] then
         some ((condFoldAux ["n"] [] []
             [⟨"P", [("n", some 1), ("Practice List Size", some 3)]⟩] (0, [])).1 /
           populationTotal [⟨"P", [("n", some 1), ("Practice List Size", some 3)]⟩] * 1000)
       else none).map round10 := rfl
  have hpop : populationTotal [⟨"P", [("n", some 1), ("Practice List Size", some 3)]⟩] = 3 := by
    simp +decide [populationTotal, sumNA, getCell, listSizeCol, List.lookup]
  have hf : (condFoldAux ["n"] [] []
      [⟨"P", [("n", some 1), ("Practice List Size", some 3)]⟩] (0, [])).1 = 1 := by
    simp +decide [condFoldAux, rowPatients, sumNA, getCell, List.lookup]
  have htot : (computeCondition ["n"] [] [] []
      [⟨"P", [("n", some 1), ("Practice List Size", some 3)]⟩]).totals.total_patients = 1 := by
    have h : (computeCondition ["n"] [] [] []
        [⟨"P", [("n", some 1), ("Practice List Size", some 3)]⟩]).totals.total_patients =
        truncQ (condFoldAux ["n"] [] []
          [⟨"P", [("n", some 1), ("Practice List Size", some 3)]⟩] (0, [])).1 := rfl
    rw [h, hf]
    norm_num [truncQ]
  rw [hb, hpop, hf, htot]
  norm_num [round10]
  intro h
  exact div_tenPow_ne_third (round ((10000000000000 : ℚ) / 3)) (by norm_num; exact h)

/-- C5 witness: c5_national_rates applied to a one-practice extract
with list size 2 and no subset column. -/
theorem c5_witness :
    ((∀ r ∈ ([⟨"P", [("n", some 1), ("Practice List Size", some 2)]⟩] : List PrevRow),
        nonnegCell (getCell r listSizeCol))
     ∧ (∀ r ∈ ([⟨"P", [("n", some 1), ("Practice List Size", some 2)]⟩] : List PrevRow),
        nonnegCell (getCell r subsetPopCol))
     ∧ (∀ r ∈ ([⟨"P", [("n", some 1), ("Practice List Size", some 2)]⟩] : List PrevRow),
          ∀ c ∈ ["n"], intCell (getCell r c))
     ∧ subsetPopCol ∉ ([] : List String))
    ∧ (populationTotal [⟨"P", [("n", some 1), ("Practice List Size", some 2)]⟩] ≠ 0 →
        (computeCondition ["n"] [] [] []
          [⟨"P", [("n", some 1), ("Practice List Size", some 2)]⟩]).totals.prevalence_per_1000 =
        some (round10 (((computeCondition ["n"] [] [] []
          [⟨"P", [("n", some 1), ("Practice List Size", some 2)]⟩]).totals.total_patients : ℚ) /
            populationTotal [⟨"P", [("n", some 1), ("Practice List Size", some 2)]⟩] * 1000)))
    ∧ (computeCondition ["n"] [] [] []
        [⟨"P", [("n", some 1), ("Practice List Size", some 2)]⟩]).totals.prevalence_over50_per_1000 =
      none :=
  ⟨⟨by decide, by decide, by decide, by decide⟩,
    (c5_national_rates ["n"] [] [] [] _ (by decide) (by decide) (by decide)).2.1,
    (c5_national_rates ["n"] [] [] [] _ (by decide) (by decide) (by decide)).2.2.1
      (by decide)⟩

/-- Keys of the practice_info fold: exactly the accumulated keys plus
the practice ids of the detail rows. -/
theorem practiceInfo_foldl_keys (tbl : List PostcodeRow) :
    ∀ (details : List DetailRow) (acc : List (String × PracticeInfo)) (k : String),
      (k ∈ ((details.foldl
          (fun a d => upsert d.pid (geocodeInfo tbl d) a) acc).map Prod.fst)) ↔
        (k ∈ acc.map Prod.fst ∨ k ∈ details.map DetailRow.pid) := by
  intro details
  induction details with
  | nil => intro acc k; simp
  | cons d ds ih =>
    intro acc k
    rw [List.foldl_cons, ih]
    rw [mem_keys_upsert]
    simp only [List.map_cons, List.mem_cons]
    tauto

/-- C9 (amended): the emitted document satisfies the key-consistency
invariant PROVIDED the workbook itself is consistent, i.e. every
practice id of the kept prevalence rows also appears among the
practice-details rows; the code performs no join between the two
sheets and cannot enforce the invariant on its own (see the
counterexample theorem). -/
theorem c9_key_consistency (pt pr ss cn : List String) (rows : List PrevRow)
    (details : List DetailRow) (pcs : List PostcodeRow)
    (hsub : ∀ r ∈ rows, r.pid ∈ details.map DetailRow.pid) :
    ∀ k ∈ (computeCondition pt pr ss cn rows).data.map Prod.fst,
      k ∈ (practiceInfoFrom details pcs).map Prod.fst := by
  intro k hk
  have hdata : (computeCondition pt pr ss cn rows).data =
      (condFoldAux pt pr ss rows (0, [])).2 := rfl
  rw [hdata, condFoldAux_mem_keys] at hk
  rcases hk with hk | ⟨r, hr, hpid, _⟩
  · simp at hk
  · rw [practiceInfoFrom, practiceInfo_foldl_keys]
    exact Or.inr (hpid ▸ hsub r hr)

/-- C9 counterexample: a prevalence row for practice X with no
matching practice-details row produces a document where X appears in
condition_data but not in practice_info, violating the claimed
invariant. -/
theorem c9_counterexample :
    ("X" ∈ (computeCondition ["n"] [] [] []
        [⟨"X", [("n", some 1)]⟩]).data.map Prod.fst)
    ∧ ("X" ∉ (practiceInfoFrom [] []).map Prod.fst) := by
  constructor
  · norm_num [computeCondition, condFold, condFoldAux, rowPatients, sumNA, getCell,
      rowMetric, meanNA, truncQ, upsert, List.lookup]
  · simp [practiceInfoFrom]

/-- C9 witness: c9_key_consistency applied to a consistent
one-practice workbook. -/
theorem c9_witness :
    (∀ r ∈ ([⟨"P", [("n", some 1)]⟩] : List PrevRow),
       r.pid ∈ ([⟨"P", "Alpha", "BT1"⟩] : List DetailRow).map DetailRow.pid)
    ∧ ∀ k ∈ (computeCondition ["n"] [] [] []
        [⟨"P", [("n", some 1)]⟩]).data.map Prod.fst,
      k ∈ (practiceInfoFrom [⟨"P", "Alpha", "BT1"⟩] []).map Prod.fst :=
  ⟨by decide, c9_key_consistency ["n"] [] [] [] _ _ [] (by decide)⟩

/-- C6: evaluation of the feature-preparation loop at the failing
input. A practice stored in practice_info with latitude and longitude
both null, but carrying an entry for the condition, DOES appear in
the derived Feature list, at coordinates (0, 0): the JavaScript unary
plus turns null into 0, so the isNaN guard never fires. This
contradicts the claim (and the script's own comment restricting
features to practices with coordinates), so the code, not the claim,
is wrong here. -/
theorem c6_null_coordinates_bug :
    mkFeatures [("P", { name := "Alpha", latitude := none, longitude := none })]
        [("P", { patients := 5, prevalence_per_1000 := none
                 prevalence_over50_per_1000 := none })] =
      [{ id := "P", name := "Alpha", latitude := 0, longitude := 0
         prevalence := none, prevalence50 := none, patients := 5 }] := by
  decide

/-! Lemmas about the stable descending sort (claim C7). -/

theorem mem_insertFeat (x : Feature) (l : List Feature) (a : Feature)
    (h : a ∈ insertFeat x l) : a = x ∨ a ∈ l := by
  induction l with
  | nil => simpa [insertFeat] using h
  | cons y ys ih =>
    rw [insertFeat] at h
    by_cases hlt : x.patients < y.patients
    · rw [if_pos hlt] at h
      rcases List.mem_cons.mp h with rfl | h₂
      · exact Or.inr (List.mem_cons_self a ys)
      · rcases ih h₂ with h₃ | h₃
        · exact Or.inl h₃
        · exact Or.inr (List.mem_cons_of_mem y h₃)
    · rw [if_neg hlt] at h
      rcases List.mem_cons.mp h with rfl | h₂
      · exact Or.inl rfl
      · exact Or.inr h₂

theorem pairwise_insertFeat (x : Feature) (l : List Feature)
    (h : List.Pairwise (fun a b => b.patients ≤ a.patients) l) :
    List.Pairwise (fun a b => b.patients ≤ a.patients) (insertFeat x l) := by
  induction l with
  | nil => simp [insertFeat]
  | cons y ys ih =>
    rw [insertFeat]
    obtain ⟨hy, hys⟩ := List.pairwise_cons.mp h
    by_cases hlt : x.patients < y.patients
    · rw [if_pos hlt]
      refine List.pairwise_cons.mpr ⟨?_, ih hys⟩
      intro b hb
      rcases mem_insertFeat x ys b hb with rfl | hb₂
      · exact le_of_lt hlt
      · exact hy b hb₂
    · rw [if_neg hlt]
      refine List.pairwise_cons.mpr ⟨?_, h⟩
      intro b hb
      rcases List.mem_cons.mp hb with rfl | hb₂
      · exact le_of_not_lt hlt
      · exact le_trans (hy b hb₂) (le_of_not_lt hlt)

theorem filter_insertFeat (k : ℤ) (x : Feature) (l : List Feature) :
    (insertFeat x l).filter (fun f => f.patients == k) =
      (x :: l).filter (fun f => f.patients == k) := by
  induction l with
  | nil => rfl
  | cons y ys ih =>
    rw [insertFeat]
    by_cases hlt : x.patients < y.patients
    · rw [if_pos hlt]
      by_cases hy : y.patients = k
      · by_cases hx : x.patients = k
        · exfalso; omega
        · simp [List.filter_cons, hy, hx, ih]
      · simp [List.filter_cons, hy, ih]
    · rw [if_neg hlt]

/-- C7: the table ordering sorts the features by patient count
descending and is stable: for every patient count, the subsequence of
features carrying that count is exactly their subsequence in the
input encounter order; in particular counts 50, 50, 30 for practices
A, B, C in that order come out as A, B, C. -/
theorem c7_table_sort :
    (∀ l : List Feature,
       List.Pairwise (fun a b => b.patients ≤ a.patients) (sortFeatures l))
    ∧ (∀ (l : List Feature) (k : ℤ),
       (sortFeatures l).filter (fun f => f.patients == k) =
         l.filter (fun f => f.patients == k))
    ∧ sortFeatures
        [{ id := "A", name := "A", latitude := 0, longitude := 0
           prevalence := none, prevalence50 := none, patients := 50 },
         { id := "B", name := "B", latitude := 0, longitude := 0
           prevalence := none, prevalence50 := none, patients := 50 },
         { id := "C", name := "C", latitude := 0, longitude := 0
           prevalence := none, prevalence50 := none, patients := 30 }] =
        [{ id := "A", name := "A", latitude := 0, longitude := 0
           prevalence := none, prevalence50 := none, patients := 50 },
         { id := "B", name := "B", latitude := 0, longitude := 0
           prevalence := none, prevalence50 := none, patients := 50 },
         { id := "C", name := "C", latitude := 0, longitude := 0
           prevalence := none, prevalence50 := none, patients := 30 }] := by
  refine ⟨?_, ?_, by decide⟩
  · intro l
    induction l with
    | nil => simp [sortFeatures]
    | cons a l ih => exact pairwise_insertFeat a (sortFeatures l) ih
  · intro l k
    induction l with
    | nil => rfl
    | cons a l ih =>
      show ((insertFeat a (sortFeatures l)).filter (fun f => f.patients == k)) = _
      rw [filter_insertFeat]
      simp only [List.filter_cons, ih]

/-- C8: pagination uses fixed page size 10; the page count is the
ceiling of the row count divided by 10 (characterized by the two
inequalities of the first conjunct); Prev at page 1 and Next at the
last page are no-ops; the Prev and Next controls are disabled exactly
at page 1 and at the last page; the control is omitted exactly when
there is at most one page; a page-number click jumps to that page;
and 23 rows give 3 pages with exactly 3 rows on page 3. -/
theorem c8_pagination :
    (∀ n : Nat, n ≤ pageSize * totalPages n ∧ pageSize * totalPages n < n + pageSize)
    ∧ prevClickStep 1 = 1
    ∧ (∀ tp : Nat, nextClickStep tp tp = tp)
    ∧ (∀ cp : Nat, prevDisabled cp = true ↔ cp = 1)
    ∧ (∀ cp tp : Nat, nextDisabled cp tp = true ↔ cp = tp)
    ∧ (∀ tp : Nat, paginationShown tp = false ↔ tp ≤ 1)
    ∧ (∀ (s : DashState) (p : Nat), (stepDash s (DashEvent.pageClick p)).page = p)
    ∧ totalPages 23 = 3
    ∧ (∀ l : List Feature, l.length = 23 → (pageSlice l 3).length = 3) := by
  refine ⟨?_, rfl, ?_, ?_, ?_, ?_, fun s p => rfl, by decide, ?_⟩
  · intro n
    simp only [totalPages, pageSize]
    omega
  · intro tp
    rw [nextClickStep, if_neg (lt_irrefl tp)]
  · intro cp
    simp [prevDisabled]
  · intro cp tp
    simp [nextDisabled]
  · intro tp
    by_cases h : tp ≤ 1 <;> simp [paginationShown, h]
  · intro l h
    simp [pageSlice, pageSize, h]

/-- C8 witness: the row-count-dependent conjunct of c8_pagination
applied to a concrete 23-row table. -/
theorem c8_witness :
    (List.replicate 23 dummyFeature).length = 23
    ∧ (pageSlice (List.replicate 23 dummyFeature) 3).length = 3 :=
  ⟨by simp, c8_pagination.2.2.2.2.2.2.2.2 (List.replicate 23 dummyFeature) (by simp)⟩

/-- C10: the pagination cursor invariant. The state after the initial
load satisfies it; every handler the rendered page can deliver
preserves it (a page-number click can only target a rendered page
number, i.e. one between 1 and the page count); and a condition
change always resets the cursor to page 1. -/
theorem c10_page_cursor_invariant :
    (∀ n : Nat, pagInv { len := n, page := 1 })
    ∧ (∀ (s : DashState) (e : DashEvent),
        pagInv s → validEvent s e → pagInv (stepDash s e))
    ∧ (∀ (s : DashState) (n : Nat), (stepDash s (DashEvent.condChange n)).page = 1) := by
  refine ⟨?_, ?_, fun s n => rfl⟩
  · intro n
    exact ⟨le_refl 1, le_max_right _ 1⟩
  · intro s e hinv hval
    obtain ⟨h1, h2⟩ := hinv
    have hmax : totalPages s.len ≤ max (totalPages s.len) 1 := le_max_left _ _
    cases e with
    | condChange n => exact ⟨le_refl 1, le_max_right _ 1⟩
    | prevClick =>
      simp only [stepDash, prevClickStep, pagInv]
      split <;> constructor <;> omega
    | nextClick =>
      simp only [stepDash, nextClickStep, pagInv]
      split <;> constructor <;> omega
    | pageClick p =>
      obtain ⟨hp1, hp2⟩ := hval
      exact ⟨hp1, le_trans hp2 hmax⟩

/-- C10 witness: c10_page_cursor_invariant applied to the state with
23 rows on page 2 receiving a Next click. -/
theorem c10_witness :
    pagInv { len := 23, page := 2 }
    ∧ validEvent { len := 23, page := 2 } DashEvent.nextClick
    ∧ pagInv (stepDash { len := 23, page := 2 } DashEvent.nextClick) :=
  ⟨by decide, trivial,
    c10_page_cursor_invariant.2.1 { len := 23, page := 2 } DashEvent.nextClick
      (by decide) trivial⟩

end NIPrevalence
